import Mathlib

/-!
Shallow embedding of `src/app.py` (Reg SHO Threshold Security Monitor).

Python dicts are embedded as insertion-ordered association lists, dates as
`Int` day numbers (day 0 anchored on a Monday, so `weekday d = d % 7`
matches `date.weekday()` up to the choice of epoch), and date keys as the
`YYYYMMDD` strings produced by `strftime`, via the standard
days-to-civil-calendar conversion.  Fallible fetches are `Option`-valued,
matching `fetch_day`'s `dict | None` contract.  The nondeterministic
`last_updated` timestamp of `analyze` is the one field not modelled.
-/

namespace RegSHO

/- Constants, app.py lines 30-32. -/

def MAX_LOOKBACK_CAL : Nat := 120

def MAX_STREAK_DAYS : Nat := 60

def CLOSEOUT_DAYS : Nat := 13

/- A per-symbol metadata record, the value type of a parsed snapshot
(app.py lines 64-68).  `parse_regsho_file` always fills the three fields
(defaulting `rule3210` to "N"), so the embedding makes them total. -/

structure SecInfo where
  name : String
  market : String
  rule3210 : String
deriving Repr, DecidableEq, Inhabited

/- A daily snapshot: symbol -> SecInfo, as an insertion-ordered assoc list. -/

abbrev Snapshot := List (String × SecInfo)

/- The history mapping: date key "YYYYMMDD" -> Snapshot. -/

abbrev History := List (String × Snapshot)

/- `MARKET_LABELS.get(code, code)`, app.py lines 71-78. -/

def market_label (code : String) : String :=
  if code = "G" then "Global Select"
  else if code = "S" then "Capital Market"
  else if code = "Q" then "Global Market"
  else code

/- Python compares strings lexicographically by code point; `strLt` /
`strLe` embed that order on the character data.  (All date keys and
symbols here are ASCII, where this is also byte order.) -/

def charListLt : List Char → List Char → Bool
  | [], [] => false
  | [], _ :: _ => true
  | _ :: _, [] => false
  | a :: as, b :: bs =>
    if a.toNat < b.toNat then true
    else if b.toNat < a.toNat then false
    else charListLt as bs

def strLt (a b : String) : Bool := charListLt a.data b.data

def strLe (a b : String) : Bool := !(strLt b a)

/- Dates.  `weekday` models `date.weekday()` (Monday = 0 .. Sunday = 6)
for an epoch chosen so that day 0 is a Monday; `Int.emod` keeps the
residue in `[0, 7)` for negative days as well. -/

def weekday (d : Int) : Int := d % 7

/- Days-since-1970 to proleptic-Gregorian (year, month, day), the
arithmetic underlying `date.strftime("%Y%m%d")`. -/

def civil_from_days (z0 : Int) : Int × Nat × Nat :=
  let z := z0 + 719468
  let era := (if 0 ≤ z then z else z - 146096) / 146097
  let doe := (z - era * 146097).toNat
  let yoe := (doe - doe / 1460 + doe / 36524 - doe / 146096) / 365
  let y := (yoe : Int) + era * 400
  let doy := doe - (365 * yoe + yoe / 4 - yoe / 100)
  let mp := (5 * doy + 2) / 153
  let d := doy - (153 * mp + 2) / 5 + 1
  let m := if mp < 10 then mp + 3 else mp - 9
  (if mp < 10 then y else y + 1, m, d)

def pad2 (n : Nat) : String := if n < 10 then "0" ++ toString n else toString n

def pad4 (n : Nat) : String :=
  if n < 10 then "000" ++ toString n
  else if n < 100 then "00" ++ toString n
  else if n < 1000 then "0" ++ toString n
  else toString n

/- `d.strftime("%Y%m%d")` for a day number. -/

def keyOf (z : Int) : String :=
  let c := civil_from_days z
  pad4 c.1.toNat ++ pad2 c.2.1 ++ pad2 c.2.2

/- `prev_trading_days`, app.py lines 81-89: walk back one calendar day at
a time, collecting weekdays, until `n` are collected or `MAX_LOOKBACK_CAL`
calendar days have been examined.  The fuel argument is the remaining
calendar-day budget (`MAX_LOOKBACK_CAL - checked`). -/

def prevTradingAux : Nat → Nat → Int → List Int
  | _, 0, _ => []
  | n, fuel + 1, cur =>
    if n = 0 then []
    else if weekday cur < 5 then cur :: prevTradingAux (n - 1) fuel (cur - 1)
    else prevTradingAux n fuel (cur - 1)

def prev_trading_days (start : Int) (n : Nat) : List Int :=
  prevTradingAux n MAX_LOOKBACK_CAL start

/- `update_history`, app.py lines 103-127.  The network fetch
(`fetch_day`, lines 92-101) is the external collaborator: it catches all
exceptions and returns `dict | None`, embedded as `fetch : Int → Option
Snapshot`.  `merge_days` is the fetch loop of lines 110-119 (the
rate-limiting sleep has no data effect); writing a new key into a Python
dict appends it in insertion order. -/

def merge_days (fetch : Int → Option Snapshot) : List Int → History → History
  | [], history => history
  | d :: ds, history =>
    if (history.lookup (keyOf d)).isSome then merge_days fetch ds history
    else
      match fetch d with
      | some data => merge_days fetch ds (history ++ [(keyOf d, data)])
      | none => merge_days fetch ds history

/- The pruning comprehension of app.py lines 122-123. -/

def prune_history (cutoff : String) (history : History) : History :=
  history.filter (fun p => strLe cutoff p.1)

def update_history (fetch : Int → Option Snapshot) (today : Int) (stored : History) :
    History :=
  let days := prev_trading_days today (MAX_STREAK_DAYS + 10)
  let merged := merge_days fetch days stored
  prune_history (keyOf (today - ((MAX_LOOKBACK_CAL : Int) + 10))) merged

/- `analyze`, app.py lines 130-235, decomposed into the same intermediate
values the Python body binds. -/

/- Dates with a non-empty snapshot, sorted descending (lines 135-138);
`sorted(-, reverse=True)` is a stable descending sort, embedded as an
insertion sort under the reversed order. -/

def keyDesc (a b : String) : Prop := strLe b a = true

def keyAsc (a b : String) : Prop := strLe a b = true

instance : DecidableRel keyDesc :=
  fun a b => inferInstanceAs (Decidable (strLe b a = true))

instance : DecidableRel keyAsc :=
  fun a b => inferInstanceAs (Decidable (strLe a b = true))

def valid_dates (history : History) : List String :=
  List.insertionSort keyDesc
    ((history.filter (fun p => !p.2.isEmpty)).map Prod.fst)

/- `sym in history.get(dk, {})`, the per-date presence test (line 162). -/

def snapMem (history : History) (dk sym : String) : Bool :=
  ((history.lookup dk).getD []).any (fun e => e.1 == sym)

def today_key (history : History) : String := (valid_dates history).headD ""

def today_data (history : History) : Snapshot :=
  (history.lookup (today_key history)).getD []

/- `valid_dates[1] if len(valid_dates) > 1 else None` (line 145). -/

def prev_key (history : History) : Option String :=
  ((valid_dates history).drop 1).head?

def prev_data (history : History) : Snapshot :=
  match prev_key history with
  | some pk => (history.lookup pk).getD []
  | none => []

def sortAsc (l : List String) : List String :=
  List.insertionSort keyAsc l

/- `sorted(set(a) - set(b))` (lines 151-152): the ascending sort of the
distinct elements of `a` not in `b`. -/

def setDiffSorted (a b : List String) : List String :=
  sortAsc ((a.filter (fun s => !b.contains s)).dedup)

def added_list (history : History) : List String :=
  setDiffSorted ((today_data history).map Prod.fst) ((prev_data history).map Prod.fst)

def removed_list (history : History) : List String :=
  setDiffSorted ((prev_data history).map Prod.fst) ((today_data history).map Prod.fst)

/- The streak loop of lines 156-168: walk the given dates, flag each one,
count consecutive presences, and stop (flags included for the breaking
date) at the first absence.  (The `max_streak` local of line 159 is dead:
it always equals `streak` and is never read afterwards.) -/

def streak_walk (history : History) (sym : String) : List String → Nat × List (String × Bool)
  | [] => (0, [])
  | dk :: rest =>
    if snapMem history dk sym then
      let r := streak_walk history sym rest
      (r.1 + 1, (dk, true) :: r.2)
    else (0, [(dk, false)])

/- `pct = min(100, round(streak / CLOSEOUT_DAYS * 100))` (line 170).
`streak / 13 * 100` is never exactly half-integral (that would force
`13 ∣ streak`, which makes it integral), so Python's float evaluation and
banker's rounding agree with exact round-half-up here:
`round(100 * s / 13) = ⌊100 * s / 13 + 1 / 2⌋ = (200 * s + 13) / 26` in
natural division.  `pctOf_eq_round` below proves this rendering equal to
the exact `round` of the source expression. -/

def pctOf (streak : Nat) : Int :=
  min 100 (((200 * streak + 13) / 26 : Nat) : Int)

/- Lines 173-178. -/

def riskOf (streak : Nat) : String :=
  if 11 ≤ streak then "danger"
  else if 8 ≤ streak then "warning"
  else "safe"

/- Line 180: `valid_dates[streak - 1] if streak <= len(valid_dates) else
valid_dates[-1]`.  When `streak = 0` the Python index `streak - 1 = -1`
denotes the last element; `analyze` only reaches this with a non-empty
`valid_dates`, so the `""` defaults are inert. -/

def first_key (vd : List String) (streak : Nat) : String :=
  if streak ≤ vd.length then
    if streak = 0 then vd.getLastD "" else vd.getD (streak - 1) ""
  else vd.getLastD ""

/- `f"{k[:4]}-{k[4:6]}-{k[6:]}"` (lines 181, 223-224, 275). -/

def fmtDate (k : String) : String :=
  k.take 4 ++ "-" ++ ((k.drop 4).take 2) ++ "-" ++ k.drop 6

structure SecurityRecord where
  symbol : String
  name : String
  market : String
  market_label : String
  rule3210 : String
  streak : Nat
  days_remaining : Nat
  pct : Int
  risk : String
  first_date : String
  is_new : Bool
  history_flags : List (String × Bool)
deriving Repr, DecidableEq, Inhabited

/- One entry of the `securities` list (lines 156-196). -/

def build_record (history : History) (vd : List String) (added : List String)
    (sym : String) (info : SecInfo) : SecurityRecord :=
  let w := streak_walk history sym (vd.take MAX_STREAK_DAYS)
  { symbol := sym
    name := info.name
    market := info.market
    market_label := market_label info.market
    rule3210 := info.rule3210
    streak := w.1
    days_remaining := CLOSEOUT_DAYS - w.1
    pct := pctOf w.1
    risk := riskOf w.1
    first_date := fmtDate (first_key vd w.1)
    is_new := added.contains sym
    history_flags := w.2.take 30 }

/- Order facts about the embedded Python string order. -/

lemma charListLt_asymm : ∀ (a b : List Char),
    charListLt a b = true → charListLt b a = false
  | [], [], h => by simp [charListLt] at h
  | [], _ :: _, _ => rfl
  | _ :: _, [], h => by simp [charListLt] at h
  | a :: as, b :: bs, h => by
    by_cases h1 : a.toNat < b.toNat
    · have h2 : ¬ b.toNat < a.toNat := by omega
      simp [charListLt, h1, h2]
    · by_cases h2 : b.toNat < a.toNat
      · simp [charListLt, h1, h2] at h
      · simp only [charListLt, if_neg h1, if_neg h2] at h
        simp only [charListLt, if_neg h2, if_neg h1]
        exact charListLt_asymm as bs h

lemma charListLt_trans : ∀ (a b c : List Char),
    charListLt a b = true → charListLt b c = true → charListLt a c = true
  | [], [], _, h1, _ => by simp [charListLt] at h1
  | [], _ :: _, [], _, h2 => by simp [charListLt] at h2
  | [], _ :: _, _ :: _, _, _ => rfl
  | _ :: _, [], _, h1, _ => by simp [charListLt] at h1
  | _ :: _, _ :: _, [], _, h2 => by simp [charListLt] at h2
  | a :: as, b :: bs, c :: cs, h1, h2 => by
    by_cases hab : a.toNat < b.toNat <;> by_cases hba : b.toNat < a.toNat
    · omega
    · by_cases hbc : b.toNat < c.toNat
      · have : a.toNat < c.toNat := by omega
        simp [charListLt, this]
      · by_cases hcb : c.toNat < b.toNat
        · simp [charListLt, hbc, hcb] at h2
        · have : a.toNat < c.toNat := by omega
          simp [charListLt, this]
    · simp [charListLt, hab, hba] at h1
    · by_cases hbc : b.toNat < c.toNat
      · have : a.toNat < c.toNat := by omega
        simp [charListLt, this]
      · by_cases hcb : c.toNat < b.toNat
        · simp [charListLt, hbc, hcb] at h2
        · have hac : ¬ a.toNat < c.toNat := by omega
          have hca : ¬ c.toNat < a.toNat := by omega
          simp only [charListLt, if_neg hab, if_neg hba] at h1
          simp only [charListLt, if_neg hbc, if_neg hcb] at h2
          simp only [charListLt, if_neg hac, if_neg hca]
          exact charListLt_trans as bs cs h1 h2

lemma charListLt_conn : ∀ (a b : List Char),
    charListLt a b = false → charListLt b a = false → a = b
  | [], [], _, _ => rfl
  | [], _ :: _, h1, _ => by simp [charListLt] at h1
  | _ :: _, [], _, h2 => by simp [charListLt] at h2
  | a :: as, b :: bs, h1, h2 => by
    by_cases hab : a.toNat < b.toNat
    · simp [charListLt, hab] at h1
    · by_cases hba : b.toNat < a.toNat
      · simp [charListLt, hba] at h2
      · have hc : a = b := by
          have hn : a.toNat = b.toNat := by omega
          rw [← Char.ofNat_toNat a, hn, Char.ofNat_toNat]
        simp only [charListLt, if_neg hab, if_neg hba] at h1
        simp only [charListLt, if_neg hba, if_neg hab] at h2
        rw [hc, charListLt_conn as bs h1 h2]

lemma strLe_total (a b : String) : strLe a b = true ∨ strLe b a = true := by
  by_cases h : strLt b a = true
  · right
    have := charListLt_asymm b.data a.data h
    simp [strLe, strLt, this]
  · left
    simp [strLe]
    simpa [strLt] using h

lemma strLe_trans (a b c : String) :
    strLe a b = true → strLe b c = true → strLe a c = true := by
  simp only [strLe, strLt, Bool.not_eq_true', Bool.not_eq_false]
  intro h1 h2
  by_cases hca : charListLt c.data a.data = true
  · by_cases hbc : charListLt b.data c.data = true
    · rw [charListLt_trans b.data c.data a.data hbc hca] at h1
      cases h1
    · have : b.data = c.data :=
        charListLt_conn b.data c.data (by simpa using hbc) h2
      rw [this, hca] at h1
      cases h1
  · simpa using hca

/- The sort key of line 198: ascending in `(-streak, symbol)`. -/

def secLE (a b : SecurityRecord) : Prop :=
  b.streak < a.streak ∨ (a.streak = b.streak ∧ strLe a.symbol b.symbol = true)

instance : DecidableRel secLE := fun a b =>
  inferInstanceAs
    (Decidable (b.streak < a.streak ∨ (a.streak = b.streak ∧ strLe a.symbol b.symbol = true)))

instance : IsTotal SecurityRecord secLE where
  total a b := by
    rcases Nat.lt_trichotomy a.streak b.streak with h | h | h
    · exact Or.inr (Or.inl h)
    · rcases strLe_total a.symbol b.symbol with hs | hs
      · exact Or.inl (Or.inr ⟨h, hs⟩)
      · exact Or.inr (Or.inr ⟨h.symm, hs⟩)
    · exact Or.inl (Or.inl h)

instance : IsTrans SecurityRecord secLE where
  trans a b c hab hbc := by
    rcases hab with hab | ⟨hab, hab'⟩ <;> rcases hbc with hbc | ⟨hbc, hbc'⟩
    · exact Or.inl (hbc.trans hab)
    · exact Or.inl (hbc ▸ hab)
    · exact Or.inl (hab ▸ hbc)
    · exact Or.inr ⟨hab.trans hbc, strLe_trans _ _ _ hab' hbc'⟩

def securities_list (history : History) : List SecurityRecord :=
  List.insertionSort secLE
    ((today_data history).map
      (fun e => build_record history (valid_dates history) (added_list history) e.1 e.2))

/- The removed-symbol streak loop of lines 204-209: consecutive presence
over `valid_dates[1:]`, breaking at the first absence. -/

def removal_streak (history : History) (sym : String) : List String → Nat
  | [] => 0
  | dk :: rest =>
    if snapMem history dk sym then removal_streak history sym rest + 1 else 0

structure RemovalRecord where
  symbol : String
  name : String
  market_label : String
  streak_at_removal : Nat
  rule3210 : String
deriving Repr, DecidableEq, Inhabited

/- `prev_data.get(sym, {})` then per-field `.get` defaults (lines 203,
212-215): an absent metadata dict yields "", "", "N". -/

def emptyInfo : SecInfo := { name := "", market := "", rule3210 := "N" }

def removed_detail (history : History) : List RemovalRecord :=
  (removed_list history).map (fun sym =>
    let info := ((prev_data history).lookup sym).getD emptyInfo
    { symbol := sym
      name := info.name
      market_label := market_label info.market
      streak_at_removal := removal_streak history sym ((valid_dates history).drop 1)
      rule3210 := info.rule3210 })

structure Summary where
  danger : Nat
  warning : Nat
  safe : Nat
  total : Nat
  rule3210 : Nat
  new_today : Nat
  removed_today : Nat
deriving Repr, DecidableEq, Inhabited

def mk_summary (secs : List SecurityRecord) (added removed : List String) : Summary :=
  { danger := (secs.filter (fun s => s.risk == "danger")).length
    warning := (secs.filter (fun s => s.risk == "warning")).length
    safe := (secs.filter (fun s => s.risk == "safe")).length
    total := secs.length
    rule3210 := (secs.filter (fun s => s.rule3210 == "Y")).length
    new_today := added.length
    removed_today := removed.length }

structure AnalysisResult where
  securities : List SecurityRecord
  added_today : List String
  removed_today : List RemovalRecord
  ref_date : String
  prev_date : Option String
  summary : Summary
deriving Repr, DecidableEq, Inhabited

/- `analyze` (lines 130-235); the two early returns of `{}` (empty
history, no valid dates) both collapse to `none` since an empty history
has no valid dates. -/

def analyze (history : History) : Option AnalysisResult :=
  if (valid_dates history).isEmpty then none
  else some
    { securities := securities_list history
      added_today := added_list history
      removed_today := removed_detail history
      ref_date := fmtDate (today_key history)
      prev_date := (prev_key history).map fmtDate
      summary := mk_summary (securities_list history) (added_list history)
        (removed_list history) }

/- `/api/history/<symbol>` (lines 270-276): the most recent 30 valid
dates' presence flags for one symbol, tested after upper-casing the input.
`str.upper()` is embedded on the character data (ASCII range, which covers
ticker symbols). -/

def upChar (c : Char) : Char :=
  if 97 ≤ c.toNat ∧ c.toNat ≤ 122 then Char.ofNat (c.toNat - 32) else c

def sUpper (s : String) : String := ⟨s.data.map upChar⟩

def api_history (history : History) (symbol : String) : String × List (String × Bool) :=
  let valid := (valid_dates history).take 30
  (sUpper symbol, valid.map (fun k => (fmtDate k, snapMem history k (sUpper symbol))))

/-! Helper lemmas. -/

/- The integer rendering of `pct` agrees with the exact rounding of the
source expression `round(streak / CLOSEOUT_DAYS * 100)`. -/

lemma pctOf_eq_round (s : Nat) :
    pctOf s = min 100 (round ((s : ℚ) / (CLOSEOUT_DAYS : ℚ) * 100)) := by
  have h : (s : ℚ) / (CLOSEOUT_DAYS : ℚ) * 100 + 1 / 2
      = ((200 * s + 13 : ℕ) : ℚ) / ((26 : ℕ) : ℚ) := by
    simp only [CLOSEOUT_DAYS]
    push_cast
    ring
  rw [pctOf, round_eq, h, Rat.floor_natCast_div_natCast]
  norm_cast

/- The streak loop computes the length of the longest presence prefix. -/

lemma streak_walk_fst (h : History) (sym : String) : ∀ L : List String,
    (streak_walk h sym L).1 = (L.takeWhile (fun dk => snapMem h dk sym)).length
  | [] => rfl
  | dk :: rest => by
    by_cases hp : snapMem h dk sym
    · simp [streak_walk, hp, List.takeWhile_cons, streak_walk_fst h sym rest]
    · simp [streak_walk, hp, List.takeWhile_cons]

lemma streak_walk_flags_length (h : History) (sym : String) : ∀ L : List String,
    (streak_walk h sym L).2.length = min ((streak_walk h sym L).1 + 1) L.length
  | [] => rfl
  | dk :: rest => by
    by_cases hp : snapMem h dk sym
    · simp only [streak_walk, hp, if_true, List.length_cons,
        streak_walk_flags_length h sym rest]
      omega
    · simp [streak_walk, hp]

lemma streak_walk_flags_map (h : History) (sym : String) : ∀ L : List String,
    (streak_walk h sym L).2.map Prod.fst = L.take (streak_walk h sym L).2.length
  | [] => rfl
  | dk :: rest => by
    by_cases hp : snapMem h dk sym
    · simp [streak_walk, hp, streak_walk_flags_map h sym rest]
    · simp [streak_walk, hp]

lemma streak_walk_flags_val (h : History) (sym : String) : ∀ (L : List String)
    (p : String × Bool), p ∈ (streak_walk h sym L).2 → p.2 = snapMem h p.1 sym
  | [], _, hp => by simp [streak_walk] at hp
  | dk :: rest, p, hp => by
    by_cases hm : snapMem h dk sym
    · simp only [streak_walk, hm, if_true, List.mem_cons] at hp
      rcases hp with hp | hp
      · rw [hp]
        simp [hm]
      · exact streak_walk_flags_val h sym rest p hp
    · simp only [streak_walk, hm, if_false, Bool.false_eq_true, List.mem_cons,
        List.not_mem_nil, or_false] at hp
      rw [hp]
      simp [hm]

/- Destructuring a successful `analyze`. -/

lemma analyze_some (history : History) (r : AnalysisResult) (hr : analyze history = some r) :
    (valid_dates history).isEmpty = false ∧
    r.securities = securities_list history ∧
    r.added_today = added_list history ∧
    r.removed_today = removed_detail history ∧
    r.prev_date = (prev_key history).map fmtDate := by
  unfold analyze at hr
  split at hr
  · cases hr
  · cases hr
    exact ⟨by simpa using (by assumption : ¬(valid_dates history).isEmpty = true),
      rfl, rfl, rfl, rfl⟩

lemma mem_securities (history : History) (rec : SecurityRecord) :
    rec ∈ securities_list history ↔
    ∃ e ∈ today_data history,
      rec = build_record history (valid_dates history) (added_list history) e.1 e.2 := by
  unfold securities_list
  rw [(List.perm_insertionSort secLE _).mem_iff, List.mem_map]
  constructor
  · rintro ⟨e, he, heq⟩
    exact ⟨e, he, heq.symm⟩
  · rintro ⟨e, he, heq⟩
    exact ⟨e, he, heq.symm⟩

/- Projections of `build_record`. -/

lemma build_record_symbol (h : History) (vd added : List String) (sym : String)
    (info : SecInfo) : (build_record h vd added sym info).symbol = sym := rfl

lemma build_record_streak (h : History) (vd added : List String) (sym : String)
    (info : SecInfo) : (build_record h vd added sym info).streak
      = (streak_walk h sym (vd.take MAX_STREAK_DAYS)).1 := rfl

lemma build_record_flags (h : History) (vd added : List String) (sym : String)
    (info : SecInfo) : (build_record h vd added sym info).history_flags
      = (streak_walk h sym (vd.take MAX_STREAK_DAYS)).2.take 30 := rfl

lemma build_record_first_date (h : History) (vd added : List String) (sym : String)
    (info : SecInfo) : (build_record h vd added sym info).first_date
      = fmtDate (first_key vd (streak_walk h sym (vd.take MAX_STREAK_DAYS)).1) := rfl

lemma build_record_pct (h : History) (vd added : List String) (sym : String)
    (info : SecInfo) : (build_record h vd added sym info).pct
      = pctOf (streak_walk h sym (vd.take MAX_STREAK_DAYS)).1 := rfl

lemma build_record_risk (h : History) (vd added : List String) (sym : String)
    (info : SecInfo) : (build_record h vd added sym info).risk
      = riskOf (streak_walk h sym (vd.take MAX_STREAK_DAYS)).1 := rfl

/- Every symbol of the reference snapshot is present on the reference date. -/

lemma snapMem_today (history : History) (e : String × SecInfo)
    (he : e ∈ today_data history) : snapMem history (today_key history) e.1 = true := by
  unfold snapMem
  unfold today_data at he
  rw [List.any_eq_true]
  exact ⟨e, he, by simp⟩

lemma mem_sortAsc (s : String) (l : List String) : s ∈ sortAsc l ↔ s ∈ l :=
  (List.perm_insertionSort keyAsc l).mem_iff

/- With a single valid date there is no previous snapshot. -/

lemma prev_data_single (history : History)
    (h1 : (valid_dates history).length = 1) : prev_data history = [] := by
  unfold prev_data prev_key
  match hvd : valid_dates history with
  | [] => simp [hvd] at h1
  | [k] => rfl
  | k1 :: k2 :: rest => simp [hvd] at h1

lemma prev_key_single (history : History)
    (h1 : (valid_dates history).length = 1) : prev_key history = none := by
  unfold prev_key
  match hvd : valid_dates history with
  | [] => simp [hvd] at h1
  | [k] => rfl
  | k1 :: k2 :: rest => simp [hvd] at h1

/- Presence of a symbol in the reference snapshot, read off `snapMem`. -/

lemma snapMem_today_iff (history : History) (sym : String) :
    snapMem history (today_key history) sym = true ↔
    ∃ e ∈ today_data history, e.1 = sym := by
  unfold snapMem today_data
  rw [List.any_eq_true]
  constructor
  · rintro ⟨e, he, hbe⟩
    exact ⟨e, he, by simpa using hbe⟩
  · rintro ⟨e, he, hbe⟩
    exact ⟨e, he, by simpa using hbe⟩

/-! Concrete example histories used by counterexamples and witnesses. -/

def infoA : SecInfo := { name := "Alpha", market := "G", rule3210 := "N" }

def infoB : SecInfo := { name := "Beta", market := "S", rule3210 := "Y" }

/- A history with exactly one valid date. -/

def exHist1 : History := [("20240105", [("AAA", infoA)])]

/- Three valid dates; "AAA" present on the newest and oldest, absent in
between. -/

def exHist2 : History :=
  [("20240105", [("AAA", infoA)]),
   ("20240104", [("BBB", infoB)]),
   ("20240103", [("AAA", infoA)])]

/- 61 distinct valid date keys (lexical order = index order), "AAA"
present on all of them: one more than `MAX_STREAK_DAYS`. -/

def mkKey (i : Nat) : String := "2024" ++ toString (100 + i)

def exHist3 : History := (List.range 61).map (fun i => (mkKey i, [("AAA", infoA)]))

/- Five valid dates with presence trace for "AAA" (most recent first)
[present, present, present, absent, present]. -/

def exHist4 : History :=
  [("20240105", [("AAA", infoA)]),
   ("20240104", [("AAA", infoA)]),
   ("20240103", [("AAA", infoA)]),
   ("20240102", [("BBB", infoB)]),
   ("20240101", [("AAA", infoA)])]

/- Two symbols with equal streak 2, listed in non-alphabetical snapshot
order. -/

def exHist7 : History :=
  [("20240105", [("MSFT", infoB), ("AAPL", infoA)]),
   ("20240104", [("AAPL", infoA), ("MSFT", infoB)])]

/- The risk-tier policy as the spec words it, for comparison with the
code's `riskOf` (a refinement-style second definition, following the
spec sentence "streak ≥ 11 → danger; 8 ≤ streak < 11 → warning; else
safe"). -/

def riskTierSpec (streak : Nat) : String :=
  if 11 ≤ streak then "danger"
  else if 8 ≤ streak ∧ streak < 11 then "warning"
  else "safe"

lemma riskOf_eq_riskTierSpec (s : Nat) : riskOf s = riskTierSpec s := by
  unfold riskOf riskTierSpec
  by_cases h11 : 11 ≤ s
  · rw [if_pos h11, if_pos h11]
  · by_cases h8 : 8 ≤ s
    · rw [if_neg h11, if_neg h11, if_pos h8, if_pos ⟨h8, by omega⟩]
    · rw [if_neg h11, if_neg h11, if_neg h8, if_neg (by omega)]

/-! ## Claim C1 -/

/-- C1, counterexample: for the History `exHist1`, whose `validDates` has
exactly one entry, `analyze` returns `addedToday = ["AAA"]` (not empty)
and its one SecurityRecord has `is_new = true` (not false), refuting the
claim as stated.  (`prevDate = none` and `removedToday = []` do hold.) -/
theorem C1_counterexample :
    (valid_dates exHist1).length = 1 ∧
    (analyze exHist1).map (fun r => r.added_today) = some ["AAA"] ∧
    (analyze exHist1).map (fun r => r.added_today) ≠ some [] ∧
    (analyze exHist1).map (fun r => r.securities.map (fun s => s.is_new)) = some [true] := by
  decide

/-- C1, amended: for every History whose validDates has exactly one entry,
`analyze` returns a result in which `prevDate` is none and `removedToday`
is empty, but `addedToday` contains every symbol of the reference
snapshot and every SecurityRecord has `is_new = true` (the diff is taken
against an empty previous snapshot). -/
theorem C1_single_date (history : History) (r : AnalysisResult)
    (h1 : (valid_dates history).length = 1) (hr : analyze history = some r) :
    r.prev_date = none ∧ r.removed_today = [] ∧
    ∀ rec ∈ r.securities, rec.is_new = true ∧ rec.symbol ∈ r.added_today := by
  obtain ⟨hne, hsec, hadd, hrem, hprev⟩ := analyze_some history r hr
  have hpd : prev_data history = [] := prev_data_single history h1
  refine ⟨by rw [hprev, prev_key_single history h1]; rfl, ?_, ?_⟩
  · rw [hrem]
    unfold removed_detail removed_list
    rw [hpd]
    rfl
  · intro rec hmem
    rw [hsec] at hmem
    obtain ⟨e, he, heq⟩ := (mem_securities history rec).mp hmem
    have hsym : e.1 ∈ added_list history := by
      unfold added_list setDiffSorted
      rw [hpd, mem_sortAsc, List.mem_dedup, List.mem_filter]
      exact ⟨List.mem_map_of_mem Prod.fst he, by simp⟩
    constructor
    · rw [heq]
      unfold build_record
      simp only
      exact List.elem_eq_true_of_mem hsym
    · rw [heq, hadd]
      exact hsym

/-- Witness for C1_single_date at the concrete history exHist1. -/
theorem C1_single_date_witness :
    ((analyze exHist1).getD default).prev_date = none ∧
    ((analyze exHist1).getD default).removed_today = [] ∧
    ∀ rec ∈ ((analyze exHist1).getD default).securities,
      rec.is_new = true ∧ rec.symbol ∈ ((analyze exHist1).getD default).added_today :=
  C1_single_date exHist1 ((analyze exHist1).getD default) (by decide) (by decide)

/-! ## Claim C4 -/

/-- C4, counterexample: in `exHist3` the symbol "AAA" is present on all 61
valid dates, so the number of consecutive valid dates up to the first
absence is 61, but `analyze` reports streak = 60 (the walk is capped at
`MAX_STREAK_DAYS`), refuting the claim as stated. -/
theorem C4_counterexample :
    ((valid_dates exHist3).takeWhile (fun dk => snapMem exHist3 dk "AAA")).length = 61 ∧
    (analyze exHist3).map (fun r => r.securities.map (fun s => s.streak)) = some [60] ∧
    (60 : Nat) ≠ 61 := by
  decide

/-- C4, amended: for every History with at least one valid date and every
SecurityRecord produced by `analyze`, the streak equals the number of
consecutive valid dates, among the first `MAX_STREAK_DAYS` of them (most
recent first, starting at index 0), on which the symbol is present,
stopping at the first such date where it is absent; in particular
streak ≥ 1. -/
theorem C4_streak (history : History) (r : AnalysisResult) (rec : SecurityRecord)
    (hr : analyze history = some r) (hrec : rec ∈ r.securities) :
    rec.streak = (((valid_dates history).take MAX_STREAK_DAYS).takeWhile
      (fun dk => snapMem history dk rec.symbol)).length ∧
    1 ≤ rec.streak := by
  obtain ⟨hne, hsec, _, _, _⟩ := analyze_some history r hr
  rw [hsec] at hrec
  obtain ⟨e, he, heq⟩ := (mem_securities history rec).mp hrec
  have hsym : rec.symbol = e.1 := by rw [heq, build_record_symbol]
  have hstreak : rec.streak
      = (streak_walk history e.1 ((valid_dates history).take MAX_STREAK_DAYS)).1 := by
    rw [heq, build_record_streak]
  rw [hstreak, hsym, streak_walk_fst]
  refine ⟨rfl, ?_⟩
  obtain ⟨k, rest, hv⟩ : ∃ k rest, valid_dates history = k :: rest := by
    cases hv : valid_dates history with
    | nil => rw [hv] at hne; simp at hne
    | cons k rest => exact ⟨k, rest, rfl⟩
  have hk : k = today_key history := by
    unfold today_key
    rw [hv]
    rfl
  have hmemk : snapMem history k e.1 = true := by
    rw [hk]
    exact snapMem_today history e he
  rw [hv, show MAX_STREAK_DAYS = 59 + 1 from rfl, List.take_succ_cons]
  simp [List.takeWhile_cons, hmemk]

/-- Witness for C4_streak at exHist4, whose presence trace for "AAA" is
[present, present, present, absent, present]: the streak is 3. -/
theorem C4_streak_witness :
    ((((analyze exHist4).getD default).securities.headD default).streak
      = (((valid_dates exHist4).take MAX_STREAK_DAYS).takeWhile
          (fun dk => snapMem exHist4 dk
            ((((analyze exHist4).getD default).securities.headD default).symbol))).length ∧
      1 ≤ (((analyze exHist4).getD default).securities.headD default).streak) ∧
    (((analyze exHist4).getD default).securities.headD default).streak = 3 := by
  have h := C4_streak exHist4 ((analyze exHist4).getD default)
    (((analyze exHist4).getD default).securities.headD default) (by decide) (by decide)
  exact ⟨h, by decide⟩

/-! ## Claim C3 -/

/-- C3, counterexample: in `exHist3` there are 61 valid dates and "AAA" is
present on all of them; `analyze` reports streak = 60 but sets
`first_date` to the formatted `validDates[59]` ("2024-10-1"), not the
oldest retained valid date `validDates[60]` ("2024-10-0"), refuting the
claim as stated. -/
theorem C3_counterexample :
    MAX_STREAK_DAYS < (valid_dates exHist3).length ∧
    (∀ dk ∈ valid_dates exHist3, snapMem exHist3 dk "AAA" = true) ∧
    (analyze exHist3).map (fun r => r.securities.map (fun s => (s.streak, s.first_date)))
      = some [(60, "2024-10-1")] ∧
    fmtDate ((valid_dates exHist3).getLastD "") = "2024-10-0" ∧
    ("2024-10-1" : String) ≠ "2024-10-0" := by
  decide

/-- C3, amended: for every History and every symbol present on every one
of more than `MAX_STREAK_DAYS` valid dates counting back from the
reference date, `analyze` reports streak = `MAX_STREAK_DAYS` and sets the
symbol's `first_date` to the formatted `validDates[MAX_STREAK_DAYS - 1]`,
the oldest valid date inside the walked window (not the oldest retained
valid date). -/
theorem C3_capped (history : History) (sym : String) (r : AnalysisResult)
    (hlen : MAX_STREAK_DAYS < (valid_dates history).length)
    (hpres : ∀ dk ∈ (valid_dates history).take MAX_STREAK_DAYS, snapMem history dk sym = true)
    (hr : analyze history = some r) :
    (∃ rec ∈ r.securities, rec.symbol = sym) ∧
    ∀ rec ∈ r.securities, rec.symbol = sym →
      rec.streak = MAX_STREAK_DAYS ∧
      rec.first_date = fmtDate ((valid_dates history).getD (MAX_STREAK_DAYS - 1) "") := by
  obtain ⟨hne, hsec, _, _, _⟩ := analyze_some history r hr
  have hlen60 : ((valid_dates history).take MAX_STREAK_DAYS).length = MAX_STREAK_DAYS := by
    rw [List.length_take]
    omega
  have hhead : today_key history ∈ (valid_dates history).take MAX_STREAK_DAYS := by
    obtain ⟨k, rest, hv⟩ : ∃ k rest, valid_dates history = k :: rest := by
      cases hv : valid_dates history with
      | nil => rw [hv] at hne; simp at hne
      | cons k rest => exact ⟨k, rest, rfl⟩
    have hk : today_key history = k := by
      unfold today_key
      rw [hv]
      rfl
    rw [hk, hv, show MAX_STREAK_DAYS = 59 + 1 from rfl, List.take_succ_cons]
    exact List.mem_cons_self k _
  constructor
  · obtain ⟨e, he, hesym⟩ := (snapMem_today_iff history sym).mp (hpres _ hhead)
    refine ⟨build_record history (valid_dates history) (added_list history) e.1 e.2,
      ?_, by rw [build_record_symbol, hesym]⟩
    rw [hsec, mem_securities]
    exact ⟨e, he, rfl⟩
  · intro rec hrec hrsym
    rw [hsec] at hrec
    obtain ⟨e, he, heq⟩ := (mem_securities history rec).mp hrec
    have hesym : e.1 = sym := by
      rw [← hrsym, heq, build_record_symbol]
    have hwalk : (streak_walk history e.1 ((valid_dates history).take MAX_STREAK_DAYS)).1
        = MAX_STREAK_DAYS := by
      rw [streak_walk_fst, hesym,
        List.takeWhile_eq_self_iff.mpr (by simpa using hpres), hlen60]
    have hstreak : rec.streak = MAX_STREAK_DAYS := by
      rw [heq, build_record_streak, hwalk]
    refine ⟨hstreak, ?_⟩
    rw [heq, build_record_first_date, hwalk]
    unfold first_key
    rw [if_pos (le_of_lt hlen), if_neg (by decide)]

/-- Witness for C3_capped at exHist3 with symbol "AAA". -/
theorem C3_capped_witness :
    (∃ rec ∈ ((analyze exHist3).getD default).securities, rec.symbol = "AAA") ∧
    ∀ rec ∈ ((analyze exHist3).getD default).securities, rec.symbol = "AAA" →
      rec.streak = MAX_STREAK_DAYS ∧
      rec.first_date = fmtDate ((valid_dates exHist3).getD (MAX_STREAK_DAYS - 1) "") :=
  C3_capped exHist3 "AAA" ((analyze exHist3).getD default) (by decide) (by decide) (by decide)

/-! ## Claim C2 -/

/-- C2, counterexample: in `exHist2` there are 3 valid dates (all within
the walk limit), and "AAA" is present on the first and absent on the
second; its `history_flags` trace has only 2 entries — the loop breaks at
the first absence instead of continuing to the walk limit — refuting the
claim as stated. -/
theorem C2_counterexample :
    ((valid_dates exHist2).take MAX_STREAK_DAYS).length = 3 ∧
    (analyze exHist2).map (fun r => r.securities.map (fun s => (s.symbol, s.history_flags.length)))
      = some [("AAA", 2)] ∧
    (2 : Nat) ≠ 3 := by
  decide

/-- C2, amended: for every SecurityRecord produced by `analyze`, the
`history_flags` trace contains one {date, present} entry per valid date
walked, in order, ending at the first absent date (whose entry is
included) rather than continuing past it: its length is
min 30 (min (streak + 1) (number of walked dates)), its dates are the
corresponding prefix of the walked dates, and each flag records the
symbol's presence on that date. -/
theorem C2_history_flags (history : History) (r : AnalysisResult) (rec : SecurityRecord)
    (hr : analyze history = some r) (hrec : rec ∈ r.securities) :
    rec.history_flags.length
      = min 30 (min (rec.streak + 1) ((valid_dates history).take MAX_STREAK_DAYS).length) ∧
    rec.history_flags.map Prod.fst
      = ((valid_dates history).take MAX_STREAK_DAYS).take rec.history_flags.length ∧
    ∀ p ∈ rec.history_flags, p.2 = snapMem history p.1 rec.symbol := by
  obtain ⟨hne, hsec, _, _, _⟩ := analyze_some history r hr
  rw [hsec] at hrec
  obtain ⟨e, he, heq⟩ := (mem_securities history rec).mp hrec
  have hsym : rec.symbol = e.1 := by rw [heq, build_record_symbol]
  have hstreak : rec.streak
      = (streak_walk history e.1 ((valid_dates history).take MAX_STREAK_DAYS)).1 := by
    rw [heq, build_record_streak]
  have hflags : rec.history_flags
      = (streak_walk history e.1 ((valid_dates history).take MAX_STREAK_DAYS)).2.take 30 := by
    rw [heq, build_record_flags]
  refine ⟨?_, ?_, ?_⟩
  · rw [hflags, hstreak, List.length_take, streak_walk_flags_length]
  · rw [hflags, List.map_take, streak_walk_flags_map, List.take_take, List.length_take]
  · intro p hp
    rw [hsym]
    refine streak_walk_flags_val history e.1
      ((valid_dates history).take MAX_STREAK_DAYS) p ?_
    rw [hflags] at hp
    exact List.take_subset 30 _ hp

/-- Witness for C2_history_flags at exHist2: the "AAA" record's trace. -/
theorem C2_history_flags_witness :
    ((((analyze exHist2).getD default).securities.headD default).history_flags.length
      = min 30 (min ((((analyze exHist2).getD default).securities.headD default).streak + 1)
          ((valid_dates exHist2).take MAX_STREAK_DAYS).length) ∧
      (((analyze exHist2).getD default).securities.headD default).history_flags.map Prod.fst
        = ((valid_dates exHist2).take MAX_STREAK_DAYS).take
            ((((analyze exHist2).getD default).securities.headD default).history_flags.length) ∧
      ∀ p ∈ (((analyze exHist2).getD default).securities.headD default).history_flags,
        p.2 = snapMem exHist2 p.1
          ((((analyze exHist2).getD default).securities.headD default).symbol)) := by
  exact C2_history_flags exHist2 ((analyze exHist2).getD default)
    (((analyze exHist2).getD default).securities.headD default) (by decide) (by decide)

/-! ## Claim C5 -/

/-- C5: the risk tier assigned by `analyze` is a pure, total function of
the streak alone, exactly the spec's policy `riskTierSpec`
(streak ≥ 11 → danger; 8 ≤ streak < 11 → warning; else safe), with the
boundary values tier(7) = safe, tier(8) = warning, tier(10) = warning,
tier(11) = danger. -/
theorem C5_risk_tier (history : History) (r : AnalysisResult) (rec : SecurityRecord)
    (hr : analyze history = some r) (hrec : rec ∈ r.securities) :
    rec.risk = riskTierSpec rec.streak ∧
    riskTierSpec 7 = "safe" ∧ riskTierSpec 8 = "warning" ∧
    riskTierSpec 10 = "warning" ∧ riskTierSpec 11 = "danger" := by
  obtain ⟨hne, hsec, _, _, _⟩ := analyze_some history r hr
  rw [hsec] at hrec
  obtain ⟨e, he, heq⟩ := (mem_securities history rec).mp hrec
  have hrisk : rec.risk = riskOf rec.streak := by
    rw [heq, build_record_risk, build_record_streak]
  exact ⟨by rw [hrisk, riskOf_eq_riskTierSpec], rfl, rfl, rfl, rfl⟩

/-- Witness for C5_risk_tier at exHist1. -/
theorem C5_risk_tier_witness :
    ((((analyze exHist1).getD default).securities.headD default).risk
      = riskTierSpec ((((analyze exHist1).getD default).securities.headD default).streak) ∧
      riskTierSpec 7 = "safe" ∧ riskTierSpec 8 = "warning" ∧
      riskTierSpec 10 = "warning" ∧ riskTierSpec 11 = "danger") :=
  C5_risk_tier exHist1 ((analyze exHist1).getD default)
    (((analyze exHist1).getD default).securities.headD default) (by decide) (by decide)

/-! ## Claim C6 -/

/-- C6: every SecurityRecord's pct equals
min(100, round(streak / CLOSEOUT_DAYS * 100)) with CLOSEOUT_DAYS = 13;
`pctOf` is monotonically non-decreasing in the streak, and saturates at
100 whenever streak ≥ CLOSEOUT_DAYS. -/
theorem C6_pct (history : History) (r : AnalysisResult) (rec : SecurityRecord)
    (hr : analyze history = some r) (hrec : rec ∈ r.securities) :
    rec.pct = min 100 (round ((rec.streak : ℚ) / (CLOSEOUT_DAYS : ℚ) * 100)) ∧
    CLOSEOUT_DAYS = 13 ∧
    (∀ a b : Nat, a ≤ b → pctOf a ≤ pctOf b) ∧
    (∀ s : Nat, CLOSEOUT_DAYS ≤ s → pctOf s = 100) := by
  obtain ⟨hne, hsec, _, _, _⟩ := analyze_some history r hr
  rw [hsec] at hrec
  obtain ⟨e, he, heq⟩ := (mem_securities history rec).mp hrec
  have hpct : rec.pct = pctOf rec.streak := by
    rw [heq, build_record_pct, build_record_streak]
  refine ⟨by rw [hpct, pctOf_eq_round], rfl, ?_, ?_⟩
  · intro a b hab
    unfold pctOf
    refine min_le_min (le_refl 100) ?_
    have h : (200 * a + 13) / 26 ≤ (200 * b + 13) / 26 :=
      Nat.div_le_div_right (by omega)
    exact_mod_cast h
  · intro s hs
    have hs13 : 13 ≤ s := hs
    unfold pctOf
    have h0 : (200 * 13 + 13) / 26 = (100 : Nat) := by norm_num
    have h : (100 : Nat) ≤ (200 * s + 13) / 26 := by
      rw [← h0]
      exact Nat.div_le_div_right (by omega)
    rw [min_eq_left (by exact_mod_cast h)]

/-- Witness for C6_pct at exHist2. -/
theorem C6_pct_witness :
    ((((analyze exHist2).getD default).securities.headD default).pct
      = min 100 (round (((((analyze exHist2).getD default).securities.headD default).streak : ℚ)
          / (CLOSEOUT_DAYS : ℚ) * 100)) ∧
      CLOSEOUT_DAYS = 13 ∧
      (∀ a b : Nat, a ≤ b → pctOf a ≤ pctOf b) ∧
      (∀ s : Nat, CLOSEOUT_DAYS ≤ s → pctOf s = 100)) :=
  C6_pct exHist2 ((analyze exHist2).getD default)
    (((analyze exHist2).getD default).securities.headD default) (by decide) (by decide)

/-! ## Claim C7 -/

/-- C7: the securities sequence returned by `analyze` is sorted by the
relation `secLE` (streak descending, ties broken by symbol ascending in
the lexical string order), and in the concrete two-symbol history
`exHist7`, "AAPL" and "MSFT" with equal streak 2 come out with "AAPL"
first. -/
theorem C7_sorted :
    (∀ history : History,
      List.Sorted secLE (((analyze history).map (fun r => r.securities)).getD [])) ∧
    (analyze exHist7).map (fun r => r.securities.map (fun s => (s.symbol, s.streak)))
      = some [("AAPL", 2), ("MSFT", 2)] := by
  constructor
  · intro history
    cases hr : analyze history with
    | none => simp
    | some r =>
      obtain ⟨hne, hsec, _, _, _⟩ := analyze_some history r hr
      show List.Sorted secLE r.securities
      rw [hsec]
      exact List.sorted_insertionSort secLE _
  · decide

/-! ## Claim C8 -/

/- Appending a differently-keyed entry does not change a lookup. -/

lemma lookup_append_single (k k2 : String) (v : Snapshot) (hne : (k == k2) = false) :
    ∀ h : History, (h ++ [(k2, v)]).lookup k = h.lookup k
  | [] => by simp [List.lookup, hne]
  | (ak, av) :: t => by
    rw [List.cons_append]
    show List.lookup k ((ak, av) :: (t ++ [(k2, v)])) = List.lookup k ((ak, av) :: t)
    simp only [List.lookup]
    cases k == ak
    · exact lookup_append_single k k2 v hne t
    · rfl

/- The fetch-merge loop never writes a key whose every candidate date
fetches `none`. -/

lemma merge_days_lookup_none (fetch : Int → Option Snapshot) (k : String) :
    ∀ (days : List Int) (h : History),
      (∀ d ∈ days, keyOf d = k → fetch d = none) →
      (merge_days fetch days h).lookup k = h.lookup k
  | [], _, _ => rfl
  | d :: ds, h, hk => by
    have htail : ∀ d2 ∈ ds, keyOf d2 = k → fetch d2 = none :=
      fun d2 hd2 => hk d2 (List.mem_cons_of_mem _ hd2)
    unfold merge_days
    by_cases hcond : (h.lookup (keyOf d)).isSome = true
    · rw [if_pos hcond]
      exact merge_days_lookup_none fetch k ds h htail
    · rw [if_neg hcond]
      cases hf : fetch d with
      | none => exact merge_days_lookup_none fetch k ds h htail
      | some data =>
        have hne : (k == keyOf d) = false := by
          rw [beq_eq_false_iff_ne]
          intro he
          rw [hk d (List.mem_cons_self d ds) he.symm] at hf
          cases hf
        rw [merge_days_lookup_none fetch k ds _ htail,
          lookup_append_single k (keyOf d) data hne h]

/- `List.lookup` through a cons, in if form. -/

lemma lookup_cons_eq (a k : String) (b : Snapshot) (es : History) :
    ((k, b) :: es).lookup a = if (a == k) = true then some b else es.lookup a := by
  rw [List.lookup_cons]
  cases hb : a == k
  · rw [if_neg (by simp)]
  · rw [if_pos rfl]

/- One unfolding step of the fetch-merge loop. -/

lemma merge_days_cons (fetch : Int → Option Snapshot) (d : Int) (ds : List Int)
    (h : History) :
    merge_days fetch (d :: ds) h
      = if (h.lookup (keyOf d)).isSome = true then merge_days fetch ds h
        else
          match fetch d with
          | some data => merge_days fetch ds (h ++ [(keyOf d, data)])
          | none => merge_days fetch ds h := rfl

/- Pruning filters a lookup by the cutoff test on the key itself. -/

lemma lookup_prune (cutoff k : String) :
    ∀ h : History, (prune_history cutoff h).lookup k
      = if strLe cutoff k = true then h.lookup k else none
  | [] => by
    simp only [prune_history, List.filter_nil, List.lookup_nil]
    split <;> rfl
  | (ak, av) :: t => by
    have ih := lookup_prune cutoff k t
    by_cases hp : strLe cutoff ak = true
    · have hkeep : prune_history cutoff ((ak, av) :: t)
          = (ak, av) :: prune_history cutoff t := by
        unfold prune_history
        rw [List.filter_cons_of_pos (by simpa using hp)]
      rw [hkeep, lookup_cons_eq, lookup_cons_eq]
      by_cases hak : (k == ak) = true
      · have hkeq : k = ak := by simpa using hak
        rw [if_pos hak, if_pos hak, if_pos (by rw [hkeq]; exact hp)]
      · rw [if_neg hak, if_neg hak, ih]
    · have hdrop : prune_history cutoff ((ak, av) :: t) = prune_history cutoff t := by
        unfold prune_history
        rw [List.filter_cons_of_neg (by simpa using hp)]
      rw [hdrop, ih, lookup_cons_eq]
      by_cases hak : (k == ak) = true
      · have hkeq : k = ak := by simpa using hak
        have hsk : ¬ strLe cutoff k = true := by rw [hkeq]; exact hp
        rw [if_neg hsk, if_neg hsk]
      · rw [if_neg hak]

/-- C8: for every candidate date whose fetch returns no data,
`update_history` writes no key for that date — the lookup of such a key
in the result equals its lookup in the pruned stored History, so an
absent date stays absent and remains retryable — and a single date's
fetch failure does not abort the run: removing a `none`-fetching date
from the candidate list leaves the merge unchanged, so the remaining
dates are still processed and the merged History is always returned
(`update_history` is a total function by construction). -/
theorem C8_fetch_failure (fetch : Int → Option Snapshot) (today : Int) (stored : History)
    (k : String)
    (hk : ∀ d ∈ prev_trading_days today (MAX_STREAK_DAYS + 10), keyOf d = k → fetch d = none) :
    (update_history fetch today stored).lookup k
      = (prune_history (keyOf (today - ((MAX_LOOKBACK_CAL : Int) + 10))) stored).lookup k ∧
    ∀ (ds1 ds2 : List Int) (h : History) (d : Int), fetch d = none →
      merge_days fetch (ds1 ++ d :: ds2) h = merge_days fetch (ds1 ++ ds2) h := by
  constructor
  · show (prune_history (keyOf (today - ((MAX_LOOKBACK_CAL : Int) + 10)))
        (merge_days fetch (prev_trading_days today (MAX_STREAK_DAYS + 10)) stored)).lookup k = _
    rw [lookup_prune, lookup_prune,
      merge_days_lookup_none fetch k (prev_trading_days today (MAX_STREAK_DAYS + 10)) stored hk]
  · intro ds1 ds2 h d hf
    induction ds1 generalizing h with
    | nil =>
      simp only [List.nil_append]
      rw [merge_days_cons fetch d ds2 h]
      by_cases hcond : (h.lookup (keyOf d)).isSome = true
      · rw [if_pos hcond]
      · rw [if_neg hcond, hf]
    | cons d2 t ih =>
      simp only [List.cons_append]
      rw [merge_days_cons fetch d2 (t ++ d :: ds2) h, merge_days_cons fetch d2 (t ++ ds2) h]
      by_cases hcond : (h.lookup (keyOf d2)).isSome = true
      · rw [if_pos hcond, if_pos hcond]
        exact ih h
      · rw [if_neg hcond, if_neg hcond]
        cases fetch d2 with
        | none => exact ih h
        | some data => exact ih (h ++ [(keyOf d2, data)])

/- An always-failing fetch collaborator. -/

def noFetch : Int → Option Snapshot := fun _ => none

/-- Witness for C8_fetch_failure: an always-failing fetch on an empty
store leaves every key absent. -/
theorem C8_fetch_failure_witness :
    (update_history noFetch 19800 []).lookup "20240105"
      = (prune_history (keyOf ((19800 : Int) - ((MAX_LOOKBACK_CAL : Int) + 10))) []).lookup
          "20240105" ∧
    ∀ (ds1 ds2 : List Int) (h : History) (d : Int), noFetch d = none →
      merge_days noFetch (ds1 ++ d :: ds2) h = merge_days noFetch (ds1 ++ ds2) h :=
  C8_fetch_failure noFetch 19800 [] "20240105" (fun _ _ _ => rfl)

/-! ## Claim C9 -/

lemma prevTradingAux_spec : ∀ (fuel n : Nat) (cur : Int),
    ((prevTradingAux n fuel cur).length ≤ n ∧
     (prevTradingAux n fuel cur).length ≤ fuel) ∧
    (∀ d ∈ prevTradingAux n fuel cur,
      weekday d < 5 ∧ d ≤ cur ∧ cur - d < (fuel : Int)) ∧
    (prevTradingAux n fuel cur).Chain' (fun a b => b < a)
  | 0, n, cur => by simp [prevTradingAux]
  | fuel + 1, n, cur => by
    unfold prevTradingAux
    by_cases hn : n = 0
    · simp [hn]
    · rw [if_neg hn]
      by_cases hw : weekday cur < 5
      · rw [if_pos hw]
        obtain ⟨⟨hl1, hl2⟩, hmem, hchain⟩ := prevTradingAux_spec fuel (n - 1) (cur - 1)
        refine ⟨⟨?_, ?_⟩, ?_, ?_⟩
        · rw [List.length_cons]
          omega
        · rw [List.length_cons]
          omega
        · intro d hd
          rcases List.mem_cons.mp hd with h | h
          · rw [h]
            exact ⟨hw, le_refl _, by push_cast; omega⟩
          · obtain ⟨h1, h2, h3⟩ := hmem d h
            refine ⟨h1, by omega, by push_cast at h3 ⊢; omega⟩
        · rw [List.chain'_cons']
          refine ⟨?_, hchain⟩
          intro b hb
          have := (hmem b (List.mem_of_mem_head? hb)).2.1
          omega
      · rw [if_neg hw]
        obtain ⟨⟨hl1, hl2⟩, hmem, hchain⟩ := prevTradingAux_spec fuel n (cur - 1)
        refine ⟨⟨hl1, by omega⟩, ?_, hchain⟩
        intro d hd
        obtain ⟨h1, h2, h3⟩ := hmem d hd
        refine ⟨h1, by omega, by push_cast at h3 ⊢; omega⟩

/-- C9: for every start date and every n, `prev_trading_days start n`
returns a sequence of length ≤ n (and ≤ MAX_LOOKBACK_CAL) whose elements
are all weekdays (`weekday < 5`), all ≤ start, strictly decreasing, and
all within the MAX_LOOKBACK_CAL calendar-day search budget below start;
the walk terminates after collecting n weekdays or examining
MAX_LOOKBACK_CAL calendar days, whichever comes first, so the result may
be shorter than n. -/
theorem C9_prev_trading_days (start : Int) (n : Nat) :
    (prev_trading_days start n).length ≤ n ∧
    (prev_trading_days start n).length ≤ MAX_LOOKBACK_CAL ∧
    (∀ d ∈ prev_trading_days start n,
      weekday d < 5 ∧ d ≤ start ∧ start - d < (MAX_LOOKBACK_CAL : Int)) ∧
    (prev_trading_days start n).Chain' (fun a b => b < a) := by
  obtain ⟨⟨h1, h2⟩, hmem, hchain⟩ := prevTradingAux_spec MAX_LOOKBACK_CAL n start
  exact ⟨h1, h2, hmem, hchain⟩

/-! ## Claim C10 -/

lemma toNat_ofNat_valid (n : Nat) (h : n < 55296) : (Char.ofNat n).toNat = n := by
  rw [Char.ofNat, dif_pos (Or.inl h)]
  rfl

/- ASCII uppercasing is idempotent. -/

lemma upChar_fix (c : Char) : upChar (upChar c) = upChar c := by
  unfold upChar
  by_cases h : 97 ≤ c.toNat ∧ c.toNat ≤ 122
  · rw [if_pos h]
    have ht : (Char.ofNat (c.toNat - 32)).toNat = c.toNat - 32 :=
      toNat_ofNat_valid _ (by omega)
    rw [if_neg (by rw [ht]; omega)]
  · rw [if_neg h, if_neg h]

lemma sUpper_fix (s : String) : sUpper (sUpper s) = sUpper s := by
  unfold sUpper
  show String.mk (List.map upChar (List.map upChar s.data)) = _
  rw [List.map_map]
  exact congrArg String.mk (List.map_congr_left (fun c _ => upChar_fix c))

/- An all-uppercase probe never equals a key containing a lowercase
letter. -/

lemma sUpper_ne_of_not_upper (q s : String) (hs : sUpper s ≠ s) : sUpper q ≠ s := by
  intro he
  apply hs
  rw [← he, sUpper_fix]

/- `List.lookup` only returns values stored in the list. -/

lemma lookup_mem (k : String) : ∀ (h : History) (snap : Snapshot),
    h.lookup k = some snap → (k, snap) ∈ h
  | [], _, hl => by simp at hl
  | (ak, av) :: t, snap, hl => by
    rw [lookup_cons_eq] at hl
    by_cases hak : (k == ak) = true
    · rw [if_pos hak] at hl
      have hkeq : k = ak := by simpa using hak
      have hveq : av = snap := by injection hl
      rw [hkeq, hveq]
      exact List.mem_cons_self _ _
    · rw [if_neg hak] at hl
      exact List.mem_cons_of_mem _ (lookup_mem k t snap hl)

/-- C10: the per-symbol history query upper-cases its input before
testing presence: two query strings with the same upper-casing (in
particular, strings differing only in letter case) produce identical
results; an upper-cased probe never equals a key that is not itself
upper-case-invariant; and over a History whose stored symbols all
contain a lowercase letter, every query reports every date absent. -/
theorem C10_case_insensitive :
    (∀ (history : History) (q1 q2 : String), sUpper q1 = sUpper q2 →
      api_history history q1 = api_history history q2) ∧
    (∀ (q s : String), sUpper s ≠ s → sUpper q ≠ s) ∧
    (∀ history : History,
      (∀ e ∈ history, ∀ x ∈ e.2, sUpper x.1 ≠ x.1) →
      ∀ (q : String) (p : String × Bool), p ∈ (api_history history q).2 → p.2 = false) := by
  refine ⟨?_, sUpper_ne_of_not_upper, ?_⟩
  · intro history q1 q2 hq
    unfold api_history
    rw [hq]
  · intro history hstored q p hp
    unfold api_history at hp
    simp only [List.mem_map] at hp
    obtain ⟨k, hk, hpk⟩ := hp
    rw [← hpk]
    show snapMem history k (sUpper q) = false
    by_contra hmem
    rw [Bool.not_eq_false] at hmem
    unfold snapMem at hmem
    rw [List.any_eq_true] at hmem
    obtain ⟨x, hx, hbe⟩ := hmem
    cases hlk : history.lookup k with
    | none => rw [hlk] at hx; simp at hx
    | some snap =>
      rw [hlk] at hx
      have hxs : x ∈ snap := hx
      have hxe : x.1 = sUpper q := by simpa using hbe
      have hnu : sUpper x.1 ≠ x.1 :=
        hstored (k, snap) (lookup_mem k history snap hlk) x hxs
      exact sUpper_ne_of_not_upper q x.1 hnu hxe.symm

/- A history whose only stored symbol is lowercase. -/

def exHist10 : History := [("20240105", [("aaa", infoA)])]

/-- Witness for C10_case_insensitive: queries "aaa" and "AaA" coincide on
exHist10, the probe "AAA" differs from the stored key "aaa", and every
date is reported absent. -/
theorem C10_case_insensitive_witness :
    api_history exHist10 "aaa" = api_history exHist10 "AaA" ∧
    sUpper "AAA" ≠ "aaa" ∧
    ∀ p ∈ (api_history exHist10 "aaa").2, p.2 = false := by
  obtain ⟨h1, h2, h3⟩ := C10_case_insensitive
  exact ⟨h1 exHist10 "aaa" "AaA" (by decide), h2 "AAA" "aaa" (by decide),
    h3 exHist10 (by decide) "aaa"⟩

end RegSHO
